import Mathlib

/-!
Verification of the fontsource variant-generation pipeline.

The TypeScript sources under `packages/core/src` (utils.ts, subsets.ts,
filename.ts, css.ts) and the processor/context modules are embedded
shallowly below.  JavaScript strings become Lean `String`s (operated on
through their `List Char` data to keep kernel evaluation predictable),
JavaScript numbers become `Int` (all values the pipeline manipulates are
integral in every code path covered here; `Math.round(|slant|*10)/10` is the
identity on integers), `Map`/`Record` objects become association lists that
preserve insertion order, and the two external WASM capabilities
(subsetting, compression) become function parameters returning `Except`,
so a thrown exception is an `.error` value.  `TextEncoder.encode` is
modelled by the injective codepoint sequence of the string, which is all
the byte-exactness arguments need.
-/

namespace Fontsource

/-- JavaScript whitespace as used by `String.prototype.trim` and the `\s`
class: the ASCII whitespace characters plus NBSP (the further exotic Unicode
spaces never occur in this repository's inputs). -/
def isJsWs (c : Char) : Bool :=
  c = ' ' || c = '\t' || c = '\n' || c = '\r' || c = '\x0b' || c = '\x0c' || c = ' '

/-- `String.prototype.trim`. -/
def jsTrim (s : String) : String :=
  String.mk (((s.data.dropWhile isJsWs).reverse.dropWhile isJsWs).reverse)

/-- Split a character list at every occurrence of `sep`
(`String.prototype.split` with a single-character separator). -/
def splitOnChar (sep : Char) : List Char → List (List Char)
  | [] => [[]]
  | c :: cs =>
    let rest := splitOnChar sep cs
    if c = sep then [] :: rest
    else
      match rest with
      | [] => [[c]]
      | r :: rs => (c :: r) :: rs

/-- `fileContent.split('\n')`. -/
def jsSplitLines (s : String) : List String :=
  (splitOnChar '\n' s.data).map String.mk

/-- Whether `needle` occurs as a contiguous run inside `hay`. -/
def isInfixOfCs (needle : List Char) : List Char → Bool
  | [] => needle.isEmpty
  | c :: cs => needle.isPrefixOf (c :: cs) || isInfixOfCs needle cs

/-- `String.prototype.includes`. -/
def jsIncludes (s needle : String) : Bool :=
  isInfixOfCs needle.data s.data

/-- `String.prototype.startsWith`. -/
def jsStartsWith (s pre : String) : Bool :=
  pre.data.isPrefixOf s.data

/-- `String.prototype.endsWith`. -/
def jsEndsWith (s suf : String) : Bool :=
  suf.data.isSuffixOf s.data

/-- Lowercase an ASCII letter (`String.prototype.toLowerCase`; family names
in this repository are ASCII). -/
def jsToLowerAscii (c : Char) : Char :=
  if 'A' ≤ c ∧ c ≤ 'Z' then Char.ofNat (c.toNat + 32) else c

/-- Replace every maximal whitespace run by a single `'-'`
(`text.replace(/\s+/g, '-')`); the flag records whether we are inside a run. -/
def collapseWs : List Char → Bool → List Char
  | [], _ => []
  | c :: cs, inRun =>
    if isJsWs c then
      if inRun then collapseWs cs true else '-' :: collapseWs cs true
    else c :: collapseWs cs false

/-- utils.ts `normalizeKebabCase`. -/
def normalizeKebabCase (text : String) : String :=
  String.mk (collapseWs (text.data.map jsToLowerAscii) false)

/-- One base-16 digit as an uppercase character. -/
def hexDigitChar (n : Nat) : Char :=
  if n < 10 then Char.ofNat ('0'.toNat + n) else Char.ofNat ('A'.toNat + (n - 10))

/-- Digits of `n.toString(16).toUpperCase()`; the structurally decreasing
fuel (always sufficient, since `n / 16 < n`) keeps the definition
kernel-reducible. -/
def toHexDigitsAux (fuel n : Nat) : List Char :=
  match fuel with
  | 0 => []
  | fuel + 1 =>
    if n < 16 then [hexDigitChar n]
    else toHexDigitsAux fuel (n / 16) ++ [hexDigitChar (n % 16)]

/-- Digits of `n.toString(16).toUpperCase()`. -/
def toHexDigits (n : Nat) : List Char :=
  toHexDigitsAux (n + 1) n

/-- `n.toString(16).toUpperCase()`. -/
def toHexUpper (n : Nat) : String :=
  String.mk (toHexDigits n)

/-! ## Data model (types.ts) -/

/-- A fixed-or-variable declared style value of a loaded font
(`{type:'single',value}` or `{type:'variable',value:{min,defaultValue,max}}`). -/
inductive StyleValue where
  | single (value : Int)
  | varRange (min defaultValue max : Int)
deriving Repr, DecidableEq

/-- utils.ts `extractStyleValue`: a plain number yields itself, a range
object yields its declared default. -/
def extractStyleValue : StyleValue → Int
  | .single value => value
  | .varRange _ defaultValue _ => defaultValue

/-- The style metadata a loaded `FontRef` exposes (the four properties the
code reads: weight, italic, slant, width). -/
structure FontStyleValues where
  weight : StyleValue
  italic : StyleValue
  slant : StyleValue
  width : StyleValue
deriving Repr, DecidableEq

/-- A loaded font reference; the subsetting capability itself is passed
separately as a function. -/
structure FontRef where
  styleValues : FontStyleValues
deriving Repr, DecidableEq

/-- `VariableFontAxis`: `{min, max}`. -/
structure VariableFontAxis where
  min : Int
  max : Int
deriving Repr, DecidableEq

/-- `VariableAxisConfig`: axis tag → range, as an insertion-ordered record;
an axis absent from the config is simply absent from the list. -/
abbrev VariableAxisConfig := List (String × VariableFontAxis)

/-- First-match record lookup (JS property access / `Map.get`). -/
def lookupRecord (m : List (String × α)) (k : String) : Option α :=
  (m.find? (fun p => p.1 = k)).map (·.2)

/-- `Map.set`: update the existing entry in place or append a new one. -/
def mapSet (m : List (String × α)) (k : String) (v : α) : List (String × α) :=
  match m with
  | [] => [(k, v)]
  | (k', v') :: rest => if k' = k then (k, v) :: rest else (k', v') :: mapSet rest k v

/-- One slice of a sliced subset. -/
structure SubsetSlice where
  index : Nat
  codepoints : List Nat
deriving Repr, DecidableEq

/-- `SubsetDefinition`: a complete `range` subset or a `sliced` one. -/
inductive SubsetDefinition where
  | range (name : String) (unicodeRange : String) (codepoints : List Nat)
  | sliced (name : String) (slices : List SubsetSlice)
deriving Repr, DecidableEq

/-- `FontBuildConfig`, discriminated into its `static` and `variable`
variants.  `weights`/`styles` are `none` when omitted. -/
inductive FontBuildConfig where
  | staticCfg (family : String) (subsets : List String) (formats : List String)
      (featureSettings : List (String × Bool)) (subsetSources : List (String × String))
      (weights : Option (List Int)) (styles : Option (List String))
  | variableCfg (family : String) (subsets : List String) (formats : List String)
      (featureSettings : List (String × Bool)) (subsetSources : List (String × String))
      (variableAxes : VariableAxisConfig) (axisKey : Option String)
deriving Repr, DecidableEq

def FontBuildConfig.family : FontBuildConfig → String
  | .staticCfg f _ _ _ _ _ _ => f
  | .variableCfg f _ _ _ _ _ _ => f

def FontBuildConfig.subsets : FontBuildConfig → List String
  | .staticCfg _ s _ _ _ _ _ => s
  | .variableCfg _ s _ _ _ _ _ => s

def FontBuildConfig.formats : FontBuildConfig → List String
  | .staticCfg _ _ f _ _ _ _ => f
  | .variableCfg _ _ f _ _ _ _ => f

def FontBuildConfig.featureSettings : FontBuildConfig → List (String × Bool)
  | .staticCfg _ _ _ fs _ _ _ => fs
  | .variableCfg _ _ _ fs _ _ _ => fs

def FontBuildConfig.subsetSources : FontBuildConfig → List (String × String)
  | .staticCfg _ _ _ _ src _ _ => src
  | .variableCfg _ _ _ _ src _ _ => src

def FontBuildConfig.isStatic : FontBuildConfig → Bool
  | .staticCfg .. => true
  | .variableCfg .. => false

def FontBuildConfig.staticWeights : FontBuildConfig → Option (List Int)
  | .staticCfg _ _ _ _ _ w _ => w
  | .variableCfg .. => none

def FontBuildConfig.staticStyles : FontBuildConfig → Option (List String)
  | .staticCfg _ _ _ _ _ _ s => s
  | .variableCfg .. => none

/-- `ProcessedVariant`, tagged `static` or `variable`.  Binary content is a
byte list. -/
inductive ProcessedVariant where
  | staticVariant (weight : Int) (style : String) (subset : String) (sliceIndex : Nat)
      (filename : String) (content : List Nat)
  | variableVariant (weight : Int) (style : String) (subset : String) (sliceIndex : Nat)
      (filename : String) (content : List Nat) (variableAxes : VariableAxisConfig)
      (axisKey : String)
deriving Repr, DecidableEq

def ProcessedVariant.weight : ProcessedVariant → Int
  | .staticVariant w _ _ _ _ _ => w
  | .variableVariant w _ _ _ _ _ _ _ => w

def ProcessedVariant.style : ProcessedVariant → String
  | .staticVariant _ s _ _ _ _ => s
  | .variableVariant _ s _ _ _ _ _ _ => s

def ProcessedVariant.subset : ProcessedVariant → String
  | .staticVariant _ _ s _ _ _ => s
  | .variableVariant _ _ s _ _ _ _ _ => s

def ProcessedVariant.sliceIndex : ProcessedVariant → Nat
  | .staticVariant _ _ _ i _ _ => i
  | .variableVariant _ _ _ i _ _ _ _ => i

def ProcessedVariant.filename : ProcessedVariant → String
  | .staticVariant _ _ _ _ f _ => f
  | .variableVariant _ _ _ _ f _ _ _ => f

def ProcessedVariant.content : ProcessedVariant → List Nat
  | .staticVariant _ _ _ _ _ c => c
  | .variableVariant _ _ _ _ _ c _ _ => c

def ProcessedVariant.isVariable : ProcessedVariant → Bool
  | .staticVariant .. => false
  | .variableVariant .. => true

/-- A produced file asset; `content` is the byte sequence (UTF-8 text is
modelled by its codepoint sequence, an injective encoding). -/
structure OutputAsset where
  filename : String
  content : List Nat
deriving Repr, DecidableEq

def encodeText (s : String) : List Nat :=
  s.data.map Char.toNat

/-- The final package. -/
structure FontPackage where
  css : List OutputAsset
  fonts : List OutputAsset
deriving Repr, DecidableEq

/-! ## utils.ts `codepointsToRangeString` -/

/-- Render one closed run, `U+HEX` or `U+HEX-HEX`. -/
def renderRange (rangeStart rangeEnd : Nat) : String :=
  if rangeStart = rangeEnd then "U+" ++ toHexUpper rangeStart
  else "U+" ++ toHexUpper rangeStart ++ "-" ++ toHexUpper rangeEnd

/-- The `for (let i = 1; ...)` loop of `codepointsToRangeString`: the state
is the current run start and the previous element; each element either
extends the run or closes it, and the end of input closes the last run. -/
def rangesLoop (rangeStart prev : Nat) : List Nat → List String
  | [] => [renderRange rangeStart prev]
  | x :: xs =>
    if x ≠ prev + 1 then renderRange rangeStart prev :: rangesLoop x x xs
    else rangesLoop rangeStart x xs

/-- `[...new Set(codepoints)]`: keep the first occurrence of each element. -/
def dedupFirst (seen : List Nat) : List Nat → List Nat
  | [] => []
  | x :: xs => if x ∈ seen then dedupFirst seen xs else x :: dedupFirst (x :: seen) xs

/-- `[...new Set(codepoints)].sort((a, b) => a - b)`: on a duplicate-free
array the numeric sort produces the unique ascending arrangement, which
`insertionSort` also computes. -/
def sortedUnique (codepoints : List Nat) : List Nat :=
  List.insertionSort (· ≤ ·) (dedupFirst [] codepoints)

/-- utils.ts `codepointsToRangeString` (the argument is `number[] | undefined`). -/
def codepointsToRangeString : Option (List Nat) → String
  | none => ""
  | some codepoints =>
    match sortedUnique codepoints with
    | [] => ""
    | x :: xs => String.intercalate ", " (rangesLoop x x xs)

/-! ## subsets.ts -/

def decDigitVal (c : Char) : Option Nat :=
  if '0' ≤ c ∧ c ≤ '9' then some (c.toNat - '0'.toNat) else none

def hexCharVal (c : Char) : Option Nat :=
  if '0' ≤ c ∧ c ≤ '9' then some (c.toNat - '0'.toNat)
  else if 'a' ≤ c ∧ c ≤ 'f' then some (c.toNat - 'a'.toNat + 10)
  else if 'A' ≤ c ∧ c ≤ 'F' then some (c.toNat - 'A'.toNat + 10)
  else none

/-- Parse a maximal leading decimal-digit run (`(\d+)` followed by
`parseInt(..., 10)`); `none` when there is no digit. -/
def parseDecRun (cs : List Char) : Option Nat :=
  let ds := cs.takeWhile (fun c => (decDigitVal c).isSome)
  if ds = [] then none
  else some (ds.foldl (fun a c => 10 * a + ((decDigitVal c).getD 0)) 0)

/-- `trimmedLine.match(/codepoints: (\d+)/)`: the first position where the
literal `"codepoints: "` is followed by at least one digit; the greedy
capture is the maximal digit run there. -/
def matchCodepointsAux : List Char → Option Nat
  | [] => none
  | c :: cs =>
    if ("codepoints: ".data).isPrefixOf (c :: cs) then
      match parseDecRun ((c :: cs).drop "codepoints: ".data.length) with
      | some n => some n
      | none => matchCodepointsAux cs
    else matchCodepointsAux cs

/-- `parseInt(token, 16)` on a token already known to start with `0x`:
the prefix is consumed and the maximal hex run parsed; a token with no
hex digit after the prefix yields no entry (the source would push `NaN`,
a value no downstream path distinguishes from absence). -/
def parseIntHex (tok : List Char) : Option Nat :=
  let rest := match tok with
    | '0' :: 'x' :: r => r
    | '0' :: 'X' :: r => r
    | r => r
  let digits := rest.takeWhile (fun c => (hexCharVal c).isSome)
  if digits = [] then none
  else some (digits.foldl (fun a c => 16 * a + ((hexCharVal c).getD 0)) 0)

/-- subsets.ts `parseNamFile`: trim each line, keep lines starting `0x`,
parse the first space-separated token as base-16. -/
def parseNamFile (content : String) : List Nat :=
  (((jsSplitLines content).map jsTrim).filter (fun line => jsStartsWith line "0x")).filterMap
    (fun line => parseIntHex (line.data.takeWhile (· ≠ ' ')))

/-- The mutable state of `parseSlicingStrategy`'s loop. -/
structure SlicingState where
  slices : List (List Nat)
  currentSlice : Option (List Nat)
deriving Repr, DecidableEq

/-- One iteration of `parseSlicingStrategy`'s `for` loop. -/
def slicingStep (st : SlicingState) (line : String) : SlicingState :=
  let trimmedLine := jsTrim line
  if trimmedLine = "subsets \x7b" then
    { slices :=
        match st.currentSlice with
        | some cur => st.slices ++ [cur]
        | none => st.slices
      currentSlice := some [] }
  else if jsStartsWith trimmedLine "codepoints:" then
    match matchCodepointsAux trimmedLine.data, st.currentSlice with
    | some n, some cur => { st with currentSlice := some (cur ++ [n]) }
    | _, _ => st
  else if trimmedLine = "\x7d" then
    match st.currentSlice with
    | some cur =>
      if cur.length > 0 then { slices := st.slices ++ [cur], currentSlice := none }
      else st
    | none => st
  else st

def parseSlicingLines (lines : List String) : SlicingState :=
  lines.foldl slicingStep { slices := [], currentSlice := none }

/-- subsets.ts `parseSlicingStrategy`: run the loop over the lines, then
reverse the collected slices. -/
def parseSlicingStrategy (fileContent : String) : List (List Nat) :=
  (parseSlicingLines (jsSplitLines fileContent)).slices.reverse

/-- The `SubsetDefinition` built for one subset name from its source text
(the body of `generateSubsetData`'s loop after the availability checks). -/
def subsetDefinitionFor (name fileContent : String) : SubsetDefinition :=
  if jsIncludes fileContent "subsets \x7b" then
    let slices := parseSlicingStrategy fileContent
    .sliced name (slices.enum.map (fun p => { index := p.1 + 1, codepoints := p.2 }))
  else
    let codepoints := parseNamFile fileContent
    .range name (codepointsToRangeString (some codepoints)) codepoints

/-- subsets.ts `generateSubsetData` (the missing-source warning is a log
side effect; the entry is simply skipped).  An empty source string is
falsy in JS and is skipped the same way. -/
def generateSubsetData (config : FontBuildConfig) : List (String × SubsetDefinition) :=
  config.subsets.foldl
    (fun subsetData name =>
      match lookupRecord config.subsetSources name with
      | none => subsetData
      | some fileContent =>
        if fileContent = "" then subsetData
        else mapSet subsetData name (subsetDefinitionFor name fileContent))
    []

/-! ## filename.ts -/

/-- `normalizeStyleForFilename`. -/
def normalizeStyleForFilename (style : String) : String :=
  if jsStartsWith style "oblique " then "italic" else style

/-- `generateStaticFilename`. -/
def generateStaticFilename (familyId subset : String) (weight : Int) (style : String)
    (sliceIndex : Nat) (format : String) : String :=
  let displayStyle := normalizeStyleForFilename style
  let sliceSuffix := if sliceIndex > 0 then "-" ++ toString sliceIndex else ""
  familyId ++ "-" ++ subset ++ "-" ++ toString weight ++ "-" ++ displayStyle ++
    sliceSuffix ++ "." ++ format

/-- `generateVariableFilename`. -/
def generateVariableFilename (familyId subset axisKey style : String)
    (sliceIndex : Nat) (format : String) : String :=
  let displayStyle := normalizeStyleForFilename style
  let sliceSuffix := if sliceIndex > 0 then "-" ++ toString sliceIndex else ""
  familyId ++ "-" ++ subset ++ "-" ++ axisKey ++ "-" ++ displayStyle ++
    sliceSuffix ++ "." ++ format

/-! ## css.ts -/

/-- `generateFontSrc`. -/
def generateFontSrc (variants : List ProcessedVariant) : String :=
  match variants with
  | [] => ""
  | firstVariant :: _ =>
    let isVariable := firstVariant.isVariable
    String.intercalate ", " (variants.map (fun variant =>
      let url := "./files/" ++ variant.filename
      let format :=
        if jsEndsWith variant.filename "woff2" then
          if isVariable then "woff2-variations" else "woff2"
        else "woff"
      "url(" ++ url ++ ") format('" ++ format ++ "')"))

/-- The `unicodeRange` expression of `generateFontFace`: the flat range of a
`range` subset, or the slice with the group's slice index re-rendered. -/
def subsetUnicodeRange (subset : SubsetDefinition) (sliceIndex : Nat) : String :=
  match subset with
  | .range _ unicodeRange _ => unicodeRange
  | .sliced _ slices =>
    match slices.find? (fun s => s.index = sliceIndex) with
    | some s => codepointsToRangeString (some s.codepoints)
    | none => ""

/-- The `weight` expression of `generateFontFace`'s variable branch:
`wght ? (min = max ? min : min max) : (no axes at all ? '100 900' : '400')`. -/
def variableWeightValue (axes : VariableAxisConfig) : String :=
  match lookupRecord axes "wght" with
  | some wght =>
    if wght.min = wght.max then toString wght.min
    else toString wght.min ++ " " ++ toString wght.max
  | none => if axes.length = 0 then "100 900" else "400"

/-- The `style` expression of `generateFontFace`'s variable branch. -/
def variableStyleValue (axes : VariableAxisConfig) : String :=
  match lookupRecord axes "slnt" with
  | some slnt =>
    if slnt.min ≠ 0 ∨ slnt.max ≠ 0 then
      if slnt.min = slnt.max then "oblique " ++ toString slnt.min.natAbs ++ "deg"
      else "oblique " ++ toString slnt.max.natAbs ++ "deg " ++ toString slnt.min.natAbs ++ "deg"
    else "normal"
  | none => "normal"

/-- The `stretch` assignment of `generateFontFace` (`none` when no width
axis is configured, mirroring the `stretch ?? ''` default). -/
def variableStretchValue (axes : VariableAxisConfig) : Option String :=
  (lookupRecord axes "wdth").map (fun wdth =>
    "\n  font-stretch: " ++
      (if wdth.min = wdth.max then toString wdth.min ++ "%"
       else toString wdth.min ++ "% " ++ toString wdth.max ++ "%") ++ ";")

/-- The `(style, weight, stretch, comment)` computation of
`generateFontFace`'s variable/static branches. -/
def fontFaceParts (family : String) (firstVariant : ProcessedVariant) :
    String × String × Option String × String :=
  match firstVariant with
  | .variableVariant _ _ vsubset _ _ _ axes axisKey =>
    let weight := variableWeightValue axes
    let style := variableStyleValue axes
    let stretch := variableStretchValue axes
    let normalizedStyle := if jsStartsWith style "oblique " then "italic" else style
    (style, weight, stretch,
      normalizeKebabCase family ++ "-" ++ vsubset ++ "-" ++ axisKey ++ "-" ++
        normalizedStyle)
  | .staticVariant w st ssubset _ _ _ =>
    let normalizedStyle := if jsStartsWith st "oblique " then "italic" else st
    (st, toString w, none,
      normalizeKebabCase family ++ "-" ++ ssubset ++ "-" ++ toString w ++ "-" ++
        normalizedStyle)

/-- `generateFontFace`. -/
def generateFontFace (family : String) (variants : List ProcessedVariant)
    (subset : SubsetDefinition) : String :=
  match variants with
  | [] => ""
  | firstVariant :: _ =>
    let sliceIndex := firstVariant.sliceIndex
    let unicodeRange := subsetUnicodeRange subset sliceIndex
    if unicodeRange = "" then ""
    else
      let swsc := fontFaceParts family firstVariant
      let comment :=
        if sliceIndex > 0 then swsc.2.2.2 ++ "-" ++ toString sliceIndex else swsc.2.2.2
      let src := generateFontSrc variants
      let fontFamily := if firstVariant.isVariable then family ++ " Variable" else family
      "/* " ++ comment ++ " */\n@font-face \x7b\n  font-family: '" ++ fontFamily ++
        "';\n  font-style: " ++ swsc.1 ++ ";\n  font-display: swap;\n  font-weight: " ++
        swsc.2.1 ++ ";" ++ (swsc.2.2.1.getD "") ++ "\n  src: " ++ src ++
        ";\n  unicode-range: " ++ unicodeRange ++ ";\n\x7d\n"

/-- `Map`-style group push for `generateCSS`: an existing key's group grows
in place, a new key is appended. -/
def groupPush (groups : List (String × List ProcessedVariant)) (key : String)
    (v : ProcessedVariant) : List (String × List ProcessedVariant) :=
  match groups with
  | [] => [(key, [v])]
  | (k, g) :: rest =>
    if k = key then (k, g ++ [v]) :: rest else (k, g) :: groupPush rest key v

/-- `generateCSS`: group by `subset-sliceIndex`, then emit one block per
group whose subset definition is loaded. -/
def generateCSS (family : String) (variants : List ProcessedVariant)
    (subsets : List (String × SubsetDefinition)) : String :=
  let groupedVariants := variants.foldl
    (fun groups variant =>
      groupPush groups (variant.subset ++ "-" ++ toString variant.sliceIndex) variant)
    []
  groupedVariants.foldl
    (fun css g =>
      match g.2 with
      | [] => css
      | firstVariant :: _ =>
        match lookupRecord subsets firstVariant.subset with
        | some subset => css ++ generateFontFace family g.2 subset
        | none => css)
    ""

/-- `generateStaticCSS`. -/
def generateStaticCSS (family : String) (weight : Int) (style : String)
    (variants : List ProcessedVariant) (subsets : List (String × SubsetDefinition)) :
    String :=
  generateCSS family
    (variants.filter (fun v => !v.isVariable && v.weight == weight && v.style == style))
    subsets

/-- `generateVariableCSS`. -/
def generateVariableCSS (family : String) (variants : List ProcessedVariant)
    (subsets : List (String × SubsetDefinition)) : String :=
  generateCSS family (variants.filter (fun v => v.isVariable)) subsets

/-! ## processor (extractFontStyle, determineProcessingTargets, buildAxisValues,
processSlice/processJob, generateAllCssAssets) -/

/-- `extractFontStyle`: the font's own weight (declared default for a
variable weight) and its classified style, italic taking priority over
oblique.  `Math.round(|slant| * 10) / 10` is the identity on the integral
slants modelled here. -/
def extractFontStyle (font : FontRef) : Int × String :=
  let weight :=
    match font.styleValues.weight with
    | .single value => value
    | .varRange _ d _ => d
  let italicValue := extractStyleValue font.styleValues.italic
  let slantValue := extractStyleValue font.styleValues.slant
  let style :=
    if italicValue > 0 then "italic"
    else if slantValue ≠ 0 then "oblique " ++ toString slantValue.natAbs ++ "deg"
    else "normal"
  (weight, style)

/-- `config.weights?.length` style truthiness: present and non-empty. -/
def hasItems : Option (List α) → Bool
  | some l => !l.isEmpty
  | none => false

/-- `Set.prototype.add`: append unless already present. -/
def addDistinct [DecidableEq α] (l : List α) (x : α) : List α :=
  if x ∈ l then l else l ++ [x]

/-- The candidate standard CSS weights `100, 200, ..., 1000` of the
`for (let w = 100; w <= 1000; w += 100)` loop. -/
def standardWeightCandidates : List Int :=
  (List.range' 1 10).map (fun k : Nat => (100 : Int) * k)

/-- The weights one font contributes to `availableWeights`, in the order
the source adds them. -/
def fontAvailableWeights (font : FontRef) : List Int :=
  match font.styleValues.weight with
  | .single value => [value]
  | .varRange mn d mx =>
    [mn, mx] ++ (if d ≠ 0 then [d] else []) ++
      standardWeightCandidates.filter (fun w => mn ≤ w && w ≤ mx)

structure ProcessingTargets where
  weightsToProcess : List Int
  stylesToProcess : List String
deriving Repr, DecidableEq

/-- `determineProcessingTargets`. -/
def determineProcessingTargets (fontRefs : List FontRef) (config : FontBuildConfig) :
    ProcessingTargets :=
  if config.isStatic && hasItems config.staticWeights && hasItems config.staticStyles then
    { weightsToProcess := config.staticWeights.getD []
      stylesToProcess := config.staticStyles.getD [] }
  else
    let availableWeights := fontRefs.foldl
      (fun acc font => (fontAvailableWeights font).foldl addDistinct acc) []
    let availableStyles := fontRefs.foldl
      (fun acc font => addDistinct acc (extractFontStyle font).2) []
    { weightsToProcess :=
        if config.isStatic && hasItems config.staticWeights then config.staticWeights.getD []
        else List.insertionSort (· ≤ ·) availableWeights
      stylesToProcess :=
        if config.isStatic && hasItems config.staticStyles then config.staticStyles.getD []
        else availableStyles }

/-- An axis constraint passed to the subsetting call. -/
inductive SubsetAxisSetting where
  | varSetting (tag : String) (min defaultValue max : Int)
  | singleSetting (tag : String) (value : Int)
deriving Repr, DecidableEq

/-- `standardAxisPropertyMap` followed by the property read: the style
value a standard tag maps to (note `opsz` is not in the map). -/
def standardAxisStyleValue (font : FontRef) (tag : String) : Option StyleValue :=
  if tag = "wght" then some font.styleValues.weight
  else if tag = "slnt" then some font.styleValues.slant
  else if tag = "wdth" then some font.styleValues.width
  else if tag = "ital" then some font.styleValues.italic
  else none

/-- `buildAxisValues`.  A `targetWeight` of `0` is falsy in JS and yields
no constraint. -/
def buildAxisValues (font : FontRef) (variableConfig : Option VariableAxisConfig)
    (targetWeight : Option Int) : List SubsetAxisSetting :=
  match variableConfig with
  | some cfg =>
    cfg.map (fun p =>
      let defaultValue :=
        match standardAxisStyleValue font p.1 with
        | some (.varRange _ d _) => d
        | _ => p.2.min
      .varSetting p.1 p.2.min defaultValue p.2.max)
  | none =>
    match targetWeight, font.styleValues.weight with
    | some w, .varRange _ _ _ =>
      if w ≠ 0 then [.singleSetting "wght" w] else []
    | _, _ => []

/-- One unit of work. -/
structure ProcessingJob where
  font : FontRef
  subsetName : String
  codepoints : List Nat
  sliceIndex : Nat
  weight : Int
  style : String
  format : String
  targetWeight : Option Int
  variableConfig : Option VariableAxisConfig
  axisKey : Option String
deriving Repr, DecidableEq

/-- The arguments of the external `font.subset` call. -/
structure SubsetRequest where
  axisValues : List SubsetAxisSetting
  features : List (String × Bool)
  custom : List Nat
deriving Repr, DecidableEq

/-- The two external WASM capabilities; a thrown exception is an
`.error`. -/
structure ExternalEngine where
  subsetFont : FontRef → SubsetRequest → Except String (List Nat)
  compressFromTTF : List Nat → String → Nat → Except String (List Nat)

/-- `processSlice`: axis constraints, subsetting call, compression call at
effort 11, then the tagged variant with its generated filename. -/
def processSlice (engine : ExternalEngine) (familyId : String)
    (featureSettings : List (String × Bool)) (job : ProcessingJob) :
    Except String ProcessedVariant := do
  let axisValues := buildAxisValues job.font job.variableConfig job.targetWeight
  let subsettedFont ← engine.subsetFont job.font ⟨axisValues, featureSettings, job.codepoints⟩
  let content ← engine.compressFromTTF subsettedFont job.format 11
  match job.variableConfig, job.axisKey with
  | some axes, some axisKey =>
    pure (.variableVariant job.weight job.style job.subsetName job.sliceIndex
      (generateVariableFilename familyId job.subsetName axisKey job.style job.sliceIndex
        job.format)
      content axes axisKey)
  | _, _ =>
    pure (.staticVariant job.weight job.style job.subsetName job.sliceIndex
      (generateStaticFilename familyId job.subsetName job.weight job.style job.sliceIndex
        job.format)
      content)

/-- The first `console.warn` argument of `processJob`'s catch clause. -/
def warningFor (job : ProcessingJob) : String :=
  "Failed to process " ++ (if job.variableConfig.isSome then "variable" else "static") ++
    " font" ++ (if job.sliceIndex > 0 then " slice " ++ toString job.sliceIndex else "") ++
    " for " ++ job.subsetName ++ " (" ++ job.format ++ "):"

/-- `processJob`: the job's variant on success, or no variant plus the
logged warning (message, error) on failure. -/
def processJob (engine : ExternalEngine) (familyId : String)
    (featureSettings : List (String × Bool)) (job : ProcessingJob) :
    Option ProcessedVariant × List (String × String) :=
  match processSlice engine familyId featureSettings job with
  | .ok variant => (some variant, [])
  | .error e => (none, [(warningFor job, e)])

/-- Run all jobs (`mapConcur` preserves planning order) and filter out the
failures; the second component is the accumulated warning log. -/
def runJobs (engine : ExternalEngine) (familyId : String)
    (featureSettings : List (String × Bool)) (jobs : List ProcessingJob) :
    List ProcessedVariant × List (String × String) :=
  let results := jobs.map (processJob engine familyId featureSettings)
  (results.filterMap (·.1), (results.map (·.2)).flatten)

/-- The per-weight/style stylesheet loop of `generateAllCssAssets`'s static
branch. -/
def staticStyleSheets (family : String) (allVariants : List ProcessedVariant)
    (subsets : List (String × SubsetDefinition)) (weightsToProcess : List Int)
    (stylesToProcess : List String) : List OutputAsset :=
  weightsToProcess.foldl
    (fun cssAssets weight =>
      stylesToProcess.foldl
        (fun cssAssets style =>
          let cssContent := generateStaticCSS family weight style allVariants subsets
          if cssContent = "" then cssAssets
          else
            cssAssets ++
              [⟨if style = "normal" then toString weight ++ ".css"
                else toString weight ++ "-italic.css",
                encodeText cssContent⟩])
        cssAssets)
    []

/-- One step of the `reduce` that picks the default weight: take `current`
when strictly closer to 400, or equally close and heavier. -/
def closestTo400Step (closest current : Int) : Int :=
  if (current - 400).natAbs < (closest - 400).natAbs ∨
      ((current - 400).natAbs = (closest - 400).natAbs ∧ current > closest) then current
  else closest

/-- `weightsToProcess.reduce(...)`: `none` on an empty list (the source
guards with `length > 0`). -/
def defaultWeightOf : List Int → Option Int
  | [] => none
  | w :: ws => some (ws.foldl closestTo400Step w)

/-- `generateAllCssAssets`. -/
def generateAllCssAssets (config : FontBuildConfig)
    (subsets : List (String × SubsetDefinition)) (allVariants : List ProcessedVariant)
    (weightsToProcess : List Int) (stylesToProcess : List String) : List OutputAsset :=
  match config with
  | .variableCfg family _ _ _ _ _ _ =>
    let cssContent := generateVariableCSS family allVariants subsets
    if cssContent = "" then [] else [⟨"index.css", encodeText cssContent⟩]
  | .staticCfg family _ _ _ _ _ _ =>
    let cssAssets := staticStyleSheets family allVariants subsets weightsToProcess
      stylesToProcess
    match defaultWeightOf weightsToProcess with
    | none => cssAssets
    | some defaultWeight =>
      match cssAssets.find? (fun a => a.filename = toString defaultWeight ++ ".css") with
      | some indexCss => cssAssets ++ [⟨"index.css", indexCss.content⟩]
      | none => cssAssets

/-- The tail of `buildFont` once the job list is planned: execute all jobs,
keep the surviving variants, and assemble the package. -/
def buildPackageFromJobs (engine : ExternalEngine) (config : FontBuildConfig)
    (subsets : List (String × SubsetDefinition)) (familyId : String)
    (weightsToProcess : List Int) (stylesToProcess : List String)
    (jobs : List ProcessingJob) : FontPackage :=
  let allVariants := (runJobs engine familyId config.featureSettings jobs).1
  { css := generateAllCssAssets config subsets allVariants weightsToProcess stylesToProcess
    fonts := allVariants.map (fun v => ⟨"files/" ++ v.filename, v.content⟩) }

/-! ## General helper lemmas -/

theorem lookup_mapSet_self (m : List (String × α)) (k : String) (v : α) :
    lookupRecord (mapSet m k v) k = some v := by
  induction m with
  | nil => simp [mapSet, lookupRecord]
  | cons p rest ih =>
    by_cases h : p.1 = k
    · simp [mapSet, h, lookupRecord]
    · simpa [mapSet, h, lookupRecord, List.find?] using ih

theorem lookup_mapSet_ne (m : List (String × α)) (k k' : String) (v : α) (h : k' ≠ k) :
    lookupRecord (mapSet m k v) k' = lookupRecord m k' := by
  induction m with
  | nil => simp [mapSet, lookupRecord, List.find?, Ne.symm h]
  | cons p rest ih =>
    obtain ⟨k₀, v₀⟩ := p
    by_cases hp : k₀ = k
    · subst hp
      simp [mapSet, lookupRecord, List.find?, Ne.symm h]
    · by_cases hp' : k₀ = k'
      · subst hp'
        simp [mapSet, hp, lookupRecord, List.find?]
      · simpa [mapSet, hp, lookupRecord, List.find?, hp'] using ih

theorem jsStartsWith_append (pre rest : String) :
    jsStartsWith (pre ++ rest) pre = true := by
  rw [jsStartsWith, String.data_append, List.isPrefixOf_iff_prefix]
  exact List.prefix_append pre.data rest.data

/-! ## C8: filename grammar -/

/-- **C8.** `generateStaticFilename` and `generateVariableFilename` follow
the grammar `<familyId>-<subset>-<weight-or-axisKey>-<normalizedStyle>`
`[-<sliceIndex>].<format>`: every oblique style folds to `italic`, the slice
suffix is omitted exactly when the slice index is 0, and the cited concrete
examples hold byte-exactly. -/
theorem filename_grammar :
    (∀ rest : String, normalizeStyleForFilename ("oblique " ++ rest) = "italic") ∧
    (∀ (familyId subset style format : String) (weight : Int) (sliceIndex : Nat),
      generateStaticFilename familyId subset weight style sliceIndex format =
        familyId ++ "-" ++ subset ++ "-" ++ toString weight ++ "-" ++
          normalizeStyleForFilename style ++
          (if sliceIndex = 0 then "" else "-" ++ toString sliceIndex) ++ "." ++ format) ∧
    (∀ (familyId subset axisKey style format : String) (sliceIndex : Nat),
      generateVariableFilename familyId subset axisKey style sliceIndex format =
        familyId ++ "-" ++ subset ++ "-" ++ axisKey ++ "-" ++
          normalizeStyleForFilename style ++
          (if sliceIndex = 0 then "" else "-" ++ toString sliceIndex) ++ "." ++ format) ∧
    generateStaticFilename "inter" "latin" 400 "normal" 0 "woff2" =
      "inter-latin-400-normal.woff2" ∧
    generateStaticFilename "inter" "latin" 400 "oblique 10deg" 0 "woff2" =
      "inter-latin-400-italic.woff2" ∧
    generateStaticFilename "inter" "japanese" 400 "normal" 1 "woff2" =
      "inter-japanese-400-normal-1.woff2" ∧
    generateVariableFilename "inter" "latin" "wght" "italic" 0 "woff" =
      "inter-latin-wght-italic.woff" := by
  refine ⟨?_, ?_, ?_, ?_, ?_, ?_, ?_⟩
  · intro rest
    simp [normalizeStyleForFilename, jsStartsWith_append]
  · intro familyId subset style format weight sliceIndex
    rcases Nat.eq_zero_or_pos sliceIndex with h | h
    · subst h; rfl
    · simp [generateStaticFilename, h, Nat.pos_iff_ne_zero.mp h]
  · intro familyId subset axisKey style format sliceIndex
    rcases Nat.eq_zero_or_pos sliceIndex with h | h
    · subst h; rfl
    · simp [generateVariableFilename, h, Nat.pos_iff_ne_zero.mp h]
  · rfl
  · rfl
  · rfl
  · rfl

/-! ## C9: slicing parser's treatment of empty and unterminated blocks -/

/-- **C9, counterexample.**  The claim says a block opened and closed with
zero codepoints emits an empty slice, and a block that never reaches a
closing marker emits no slice.  Both halves fail: an empty block closed at
the end of the input emits nothing (first input, result `[]` instead of
`[[]]`), while a block that never reaches a closing marker *is* emitted
when a later block opens (second input: the unterminated block holding 7
appears in the result). -/
theorem slicing_parser_asymmetry_counterexample :
    parseSlicingStrategy "subsets \x7b\n\x7d" = [] ∧
    parseSlicingStrategy "subsets \x7b\ncodepoints: 7\nsubsets \x7b\ncodepoints: 9\n\x7d" =
      [[9], [7]] :=
  ⟨rfl, rfl⟩

/-- **C9, amended.**  Closing a block that has accumulated zero codepoints
is a no-op: the parser state is exactly as if the closing marker were
absent, so an empty closed block behaves identically to an unterminated
one.  A pending block — empty-closed or unterminated alike — contributes
nothing at the end of the input (its accumulated codepoints are dropped,
second conjunct) and is emitted exactly when a later `subsets {` line opens
another block (an empty closed block then surfaces as an empty slice, third
conjunct).  `parseSlicingStrategy` is this loop followed by a reversal. -/
theorem slicing_parser_block_behavior :
    (∀ ls rest : List String,
      parseSlicingLines (ls ++ ["subsets \x7b", "\x7d"] ++ rest) =
        parseSlicingLines (ls ++ ["subsets \x7b"] ++ rest)) ∧
    (∀ ls : List String,
      (parseSlicingLines (ls ++ ["subsets \x7b", "codepoints: 7"])).slices =
        (parseSlicingLines (ls ++ ["subsets \x7b"])).slices) ∧
    (∀ ls : List String,
      (parseSlicingLines (ls ++ ["subsets \x7b", "\x7d", "subsets \x7b"])).slices =
        (parseSlicingLines (ls ++ ["subsets \x7b"])).slices ++ [[]]) ∧
    (∀ fileContent : String,
      parseSlicingStrategy fileContent =
        (parseSlicingLines (jsSplitLines fileContent)).slices.reverse) := by
  have key₁ : ∀ st : SlicingState,
      slicingStep (slicingStep st "subsets \x7b") "\x7d" = slicingStep st "subsets \x7b" := by
    rintro ⟨S, cur⟩
    cases cur <;> rfl
  have key₂ : ∀ st : SlicingState,
      (slicingStep (slicingStep st "subsets \x7b") "codepoints: 7").slices =
        (slicingStep st "subsets \x7b").slices := by
    rintro ⟨S, cur⟩
    cases cur <;> rfl
  have key₃ : ∀ st : SlicingState,
      (slicingStep (slicingStep (slicingStep st "subsets \x7b") "\x7d") "subsets \x7b").slices =
        (slicingStep st "subsets \x7b").slices ++ [[]] := by
    rintro ⟨S, cur⟩
    cases cur <;> rfl
  refine ⟨?_, ?_, ?_, fun _ => rfl⟩
  · intro ls rest
    simp only [parseSlicingLines, List.foldl_append, List.foldl_cons, List.foldl_nil]
    rw [key₁]
  · intro ls
    simp only [parseSlicingLines, List.foldl_append, List.foldl_cons, List.foldl_nil]
    rw [key₂]
  · intro ls
    simp only [parseSlicingLines, List.foldl_append, List.foldl_cons, List.foldl_nil]
    rw [key₃]

/-! ## C2: slice indices of a sliced subset -/

theorem generateSubsetData_foldl_lookup (cfg : FontBuildConfig) (name content : String)
    (hsrc : lookupRecord cfg.subsetSources name = some content) (hne : content ≠ "") :
    ∀ (l : List String) (acc : List (String × SubsetDefinition)),
      (name ∈ l ∨ lookupRecord acc name = some (subsetDefinitionFor name content)) →
      lookupRecord
        (l.foldl (fun subsetData n =>
          match lookupRecord cfg.subsetSources n with
          | none => subsetData
          | some fileContent =>
            if fileContent = "" then subsetData
            else mapSet subsetData n (subsetDefinitionFor n fileContent)) acc) name =
        some (subsetDefinitionFor name content) := by
  intro l
  induction l with
  | nil =>
    intro acc h
    rcases h with h | h
    · simp at h
    · simpa using h
  | cons x xs ih =>
    intro acc h
    simp only [List.foldl_cons]
    apply ih
    by_cases hx : x = name
    · subst hx
      right
      simp only [hsrc, hne, if_false, lookup_mapSet_self]
    · rcases h with h | h
      · rcases List.mem_cons.mp h with h' | h'
        · exact absurd h'.symm hx
        · left; exact h'
      · right
        cases hlook : lookupRecord cfg.subsetSources x with
        | none => simpa [hlook] using h
        | some fc =>
          by_cases hfc : fc = ""
          · simpa [hlook, hfc] using h
          · simp only [hlook, hfc, if_false]
            rw [lookup_mapSet_ne _ _ _ _ (fun hh => hx hh.symm)]
            exact h

theorem enumFrom_map_fst_succ (l : List α) :
    ∀ n, (List.enumFrom n l).map (fun p => p.1 + 1) = List.range' (n + 1) l.length := by
  induction l with
  | nil => intro n; rfl
  | cons a l ih =>
    intro n
    simp only [List.enumFrom, List.map_cons, List.length_cons, List.range'_succ]
    exact congrArg (List.cons (n + 1)) (ih (n + 1))

/-- **C2.**  For every sliced subset source text, the `SubsetDefinition`
produced by `generateSubsetData` carries slices whose indices are exactly
`1, 2, ..., N` in order, and whose codepoint lists are the reverse of the
blocks in the order the parser's scan emits them from the source text — so
the last-appearing emitted block receives index 1. -/
theorem generateSubsetData_sliced_indices (cfg : FontBuildConfig) (name content : String)
    (hmem : name ∈ cfg.subsets) (hsrc : lookupRecord cfg.subsetSources name = some content)
    (hne : content ≠ "") (hmarker : jsIncludes content "subsets \x7b" = true) :
    ∃ slices : List SubsetSlice,
      lookupRecord (generateSubsetData cfg) name = some (.sliced name slices) ∧
      slices.map SubsetSlice.index = List.range' 1 slices.length ∧
      slices.map SubsetSlice.codepoints =
        ((parseSlicingLines (jsSplitLines content)).slices).reverse := by
  have hdef :=
    generateSubsetData_foldl_lookup cfg name content hsrc hne cfg.subsets [] (Or.inl hmem)
  refine ⟨(parseSlicingStrategy content).enum.map (fun p => ⟨p.1 + 1, p.2⟩), ?_, ?_, ?_⟩
  · rw [generateSubsetData, hdef]
    simp only [subsetDefinitionFor, hmarker, if_true]
  · rw [List.map_map, List.length_map]
    have : (SubsetSlice.index ∘ fun p : Nat × List Nat => (⟨p.1 + 1, p.2⟩ : SubsetSlice)) =
        fun p : Nat × List Nat => p.1 + 1 := rfl
    rw [this, List.enum, enumFrom_map_fst_succ]
    simp [List.enumFrom_length]
  · rw [List.map_map]
    have : (SubsetSlice.codepoints ∘ fun p : Nat × List Nat => (⟨p.1 + 1, p.2⟩ : SubsetSlice)) =
        Prod.snd := rfl
    rw [this, List.enum_map_snd]
    rfl

/-- **C2, witness.**  A two-block sliced source: the block holding 1
appears first, the block holding 2 and 3 appears last and receives index 1. -/
theorem generateSubsetData_sliced_indices_witness :
    ∃ slices : List SubsetSlice,
      lookupRecord
        (generateSubsetData (.staticCfg "Noto Sans JP" ["japanese"] ["woff2"] []
          [("japanese",
            "subsets \x7b\ncodepoints: 1\n\x7d\nsubsets \x7b\ncodepoints: 2\ncodepoints: 3\n\x7d")]
          none none))
        "japanese" = some (.sliced "japanese" slices) ∧
      slices.map SubsetSlice.index = List.range' 1 slices.length ∧
      slices.map SubsetSlice.codepoints =
        ((parseSlicingLines (jsSplitLines
          "subsets \x7b\ncodepoints: 1\n\x7d\nsubsets \x7b\ncodepoints: 2\ncodepoints: 3\n\x7d")).slices).reverse :=
  generateSubsetData_sliced_indices _ "japanese" _ (by decide) (by decide) (by decide)
    (by decide)

/-! ## C10: declared font-family of a block -/

/-- **C10.**  Every generated `@font-face` block declares a `font-family`
equal to the family name with the literal suffix `" Variable"` appended when
the group's first variant is variable, and the family name verbatim when it
is static. -/
theorem fontFace_family_name (family : String) (v : ProcessedVariant)
    (vs : List ProcessedVariant) (subset : SubsetDefinition)
    (h : subsetUnicodeRange subset v.sliceIndex ≠ "") :
    ∃ pre post : String,
      generateFontFace family (v :: vs) subset =
        pre ++ ("font-family: '" ++
          (if v.isVariable then family ++ " Variable" else family) ++ "';") ++ post := by
  cases v with
  | staticVariant w st sub si fn ct =>
    refine ⟨"/* " ++
      (if si > 0 then (fontFaceParts family (.staticVariant w st sub si fn ct)).2.2.2 ++
          "-" ++ toString si
        else (fontFaceParts family (.staticVariant w st sub si fn ct)).2.2.2) ++
      " */\n@font-face \x7b\n  ",
      "\n  font-style: " ++ (fontFaceParts family (.staticVariant w st sub si fn ct)).1 ++
        ";\n  font-display: swap;\n  font-weight: " ++
        (fontFaceParts family (.staticVariant w st sub si fn ct)).2.1 ++ ";" ++
        ((fontFaceParts family (.staticVariant w st sub si fn ct)).2.2.1.getD "") ++
        "\n  src: " ++ generateFontSrc (.staticVariant w st sub si fn ct :: vs) ++
        ";\n  unicode-range: " ++ subsetUnicodeRange subset si ++ ";\n\x7d\n", ?_⟩
    simp only [generateFontFace, ProcessedVariant.sliceIndex, ProcessedVariant.isVariable] at h ⊢
    rw [if_neg h]
    rw [show (" */\n@font-face \x7b\n  font-family: '" : String) =
      " */\n@font-face \x7b\n  " ++ "font-family: '" from rfl]
    rw [show ("';\n  font-style: " : String) = "';" ++ "\n  font-style: " from rfl]
    simp only [String.append_assoc, if_false, Bool.false_eq_true]
  | variableVariant w st sub si fn ct axes ak =>
    refine ⟨"/* " ++
      (if si > 0 then (fontFaceParts family (.variableVariant w st sub si fn ct axes ak)).2.2.2 ++
          "-" ++ toString si
        else (fontFaceParts family (.variableVariant w st sub si fn ct axes ak)).2.2.2) ++
      " */\n@font-face \x7b\n  ",
      "\n  font-style: " ++ (fontFaceParts family (.variableVariant w st sub si fn ct axes ak)).1 ++
        ";\n  font-display: swap;\n  font-weight: " ++
        (fontFaceParts family (.variableVariant w st sub si fn ct axes ak)).2.1 ++ ";" ++
        ((fontFaceParts family (.variableVariant w st sub si fn ct axes ak)).2.2.1.getD "") ++
        "\n  src: " ++ generateFontSrc (.variableVariant w st sub si fn ct axes ak :: vs) ++
        ";\n  unicode-range: " ++ subsetUnicodeRange subset si ++ ";\n\x7d\n", ?_⟩
    simp only [generateFontFace, ProcessedVariant.sliceIndex, ProcessedVariant.isVariable] at h ⊢
    rw [if_neg h]
    rw [show (" */\n@font-face \x7b\n  font-family: '" : String) =
      " */\n@font-face \x7b\n  " ++ "font-family: '" from rfl]
    rw [show ("';\n  font-style: " : String) = "';" ++ "\n  font-style: " from rfl]
    simp only [String.append_assoc, if_true]

/-- **C10, witness.**  A static and a variable group over the same `latin`
range subset. -/
theorem fontFace_family_name_witness :
    (∃ pre post : String,
      generateFontFace "Inter"
        [.staticVariant 400 "normal" "latin" 0 "inter-latin-400-normal.woff2" []]
        (.range "latin" "U+0-FF" [0]) =
        pre ++ ("font-family: '" ++
          (if (ProcessedVariant.staticVariant 400 "normal" "latin" 0
              "inter-latin-400-normal.woff2" []).isVariable then "Inter" ++ " Variable"
            else "Inter") ++ "';") ++ post) ∧
    (∃ pre post : String,
      generateFontFace "Inter"
        [.variableVariant 400 "normal" "latin" 0 "inter-latin-wght-normal.woff2" []
          [("wght", ⟨100, 900⟩)] "wght"]
        (.range "latin" "U+0-FF" [0]) =
        pre ++ ("font-family: '" ++
          (if (ProcessedVariant.variableVariant 400 "normal" "latin" 0
              "inter-latin-wght-normal.woff2" [] [("wght", ⟨100, 900⟩)] "wght").isVariable
            then "Inter" ++ " Variable" else "Inter") ++ "';") ++ post) :=
  ⟨fontFace_family_name "Inter" _ [] (.range "latin" "U+0-FF" [0]) (by decide),
    fontFace_family_name "Inter" _ [] (.range "latin" "U+0-FF" [0]) (by decide)⟩

/-! ## C5: rendered font-weight of a variable block -/

set_option maxRecDepth 4096 in
/-- **C5, counterexample.**  The claim says the rendered font-weight
defaults to `100 900` whenever the weight axis is entirely unconfigured.
With a config that sets only the width axis (no `wght`), the rendered
block carries `font-weight: 400;`, not `font-weight: 100 900`. -/
theorem fontFace_weight_default_counterexample :
    jsIncludes
      (generateFontFace "Inter"
        [.variableVariant 400 "normal" "latin" 0 "inter-latin-wdth-normal.woff2" []
          [("wdth", ⟨75, 100⟩)] "wdth"]
        (.range "latin" "U+0-FF" [0]))
      "font-weight: 400;" = true ∧
    jsIncludes
      (generateFontFace "Inter"
        [.variableVariant 400 "normal" "latin" 0 "inter-latin-wdth-normal.woff2" []
          [("wdth", ⟨75, 100⟩)] "wdth"]
        (.range "latin" "U+0-FF" [0]))
      "font-weight: 100 900" = false := by
  exact ⟨by decide, by decide⟩

/-- **C5, amended.**  In a variable `@font-face` block the rendered
font-weight is `"min max"` when the weight axis is configured with
min ≠ max, the single value when min = max, the full standard span
`"100 900"` when *no axis at all* is configured, and `"400"` when the
weight axis is unconfigured but at least one other axis is. -/
theorem fontFace_weight_rendering (family st sub fn ak : String) (w : Int) (si : Nat)
    (ct : List Nat) (axes : VariableAxisConfig) (vs : List ProcessedVariant)
    (subset : SubsetDefinition) (h : subsetUnicodeRange subset si ≠ "") :
    (∃ pre post : String,
      generateFontFace family (.variableVariant w st sub si fn ct axes ak :: vs) subset =
        pre ++ ("font-weight: " ++ variableWeightValue axes ++ ";") ++ post) ∧
    variableWeightValue axes =
      (match lookupRecord axes "wght" with
       | some a =>
         if a.min = a.max then toString a.min else toString a.min ++ " " ++ toString a.max
       | none => if axes = [] then "100 900" else "400") := by
  constructor
  · refine ⟨"/* " ++
      (if si > 0 then
          (fontFaceParts family (.variableVariant w st sub si fn ct axes ak)).2.2.2 ++
            "-" ++ toString si
        else (fontFaceParts family (.variableVariant w st sub si fn ct axes ak)).2.2.2) ++
      " */\n@font-face \x7b\n  font-family: '" ++ (family ++ " Variable") ++
      "';\n  font-style: " ++ variableStyleValue axes ++ ";\n  font-display: swap;\n  ",
      ((variableStretchValue axes).getD "") ++ "\n  src: " ++
        generateFontSrc (.variableVariant w st sub si fn ct axes ak :: vs) ++
        ";\n  unicode-range: " ++ subsetUnicodeRange subset si ++ ";\n\x7d\n", ?_⟩
    simp only [generateFontFace, ProcessedVariant.sliceIndex, ProcessedVariant.isVariable]
    rw [if_neg h]
    rw [show (";\n  font-display: swap;\n  font-weight: " : String) =
      ";\n  font-display: swap;\n  " ++ "font-weight: " from rfl]
    simp only [fontFaceParts, String.append_assoc, if_true]
  · rw [variableWeightValue]
    cases hl : lookupRecord axes "wght" with
    | some a => rfl
    | none =>
      cases axes with
      | nil => rfl
      | cons p rest => simp

/-- **C5, amended, witness.**  A weight axis configured as 100–900 renders
`font-weight: 100 900`. -/
theorem fontFace_weight_rendering_witness :
    (∃ pre post : String,
      generateFontFace "Inter"
        (.variableVariant 400 "normal" "latin" 0 "inter-latin-wght-normal.woff2" []
          [("wght", ⟨100, 900⟩)] "wght" :: [])
        (.range "latin" "U+0-FF" [0]) =
        pre ++ ("font-weight: " ++ variableWeightValue [("wght", ⟨100, 900⟩)] ++ ";") ++ post) ∧
    variableWeightValue [("wght", ⟨100, 900⟩)] =
      (match lookupRecord [("wght", (⟨100, 900⟩ : VariableFontAxis))] "wght" with
       | some a =>
         if a.min = a.max then toString a.min else toString a.min ++ " " ++ toString a.max
       | none => if ([("wght", (⟨100, 900⟩ : VariableFontAxis))] : VariableAxisConfig) = []
           then "100 900" else "400") :=
  fontFace_weight_rendering "Inter" "normal" "latin" "inter-latin-wght-normal.woff2" "wght"
    400 0 [] [("wght", ⟨100, 900⟩)] [] (.range "latin" "U+0-FF" [0]) (by decide)

/-! ## C4: axis constraints of a variable build -/

/-- The font's own declared default for an axis tag, when the font itself
declares a matching *variable* axis (`some`), and `none` otherwise — the
"matching" read goes through the standard-axis property map, so only
`wght`/`slnt`/`wdth`/`ital` can ever match. -/
def fontDeclaredAxisDefault (font : FontRef) (tag : String) : Option Int :=
  match standardAxisStyleValue font tag with
  | some (.varRange _ d _) => some d
  | _ => none

/-- **C4.**  In a variable build, every axis tag present in the
variable-axis config contributes a variable constraint
`{tag, min, default, max}` to the subsetting call's axis-value list, whose
default is the axis config's minimum unless the source font itself declares
a matching variable axis, in which case it is that font's own declared
default. -/
theorem buildAxisValues_variable_constraints (font : FontRef) (cfg : VariableAxisConfig)
    (tw : Option Int) (tag : String) (axis : VariableFontAxis)
    (hmem : (tag, axis) ∈ cfg) :
    SubsetAxisSetting.varSetting tag axis.min
        ((fontDeclaredAxisDefault font tag).getD axis.min) axis.max ∈
      buildAxisValues font (some cfg) tw := by
  have hd : ((fontDeclaredAxisDefault font tag).getD axis.min) =
      (match standardAxisStyleValue font tag with
       | some (.varRange _ d _) => d
       | _ => axis.min) := by
    rw [fontDeclaredAxisDefault]
    cases hs : standardAxisStyleValue font tag with
    | none => rfl
    | some sv => cases sv <;> rfl
  rw [buildAxisValues, hd]
  exact List.mem_map.mpr ⟨(tag, axis), hmem, rfl⟩

/-- **C4, witness.**  A font declaring a variable weight axis with default
450: the `wght` constraint keeps the font's 450 default, while the `opsz`
constraint (not matchable through the font's style values) falls back to
the config minimum. -/
theorem buildAxisValues_variable_constraints_witness :
    SubsetAxisSetting.varSetting "wght" (100 : Int)
        ((fontDeclaredAxisDefault
            ⟨⟨.varRange 100 450 900, .single 0, .single 0, .single 100⟩⟩ "wght").getD 100)
        900 ∈
      buildAxisValues ⟨⟨.varRange 100 450 900, .single 0, .single 0, .single 100⟩⟩
        (some [("wght", ⟨100, 900⟩), ("opsz", ⟨8, 144⟩)]) none ∧
    SubsetAxisSetting.varSetting "opsz" (8 : Int)
        ((fontDeclaredAxisDefault
            ⟨⟨.varRange 100 450 900, .single 0, .single 0, .single 100⟩⟩ "opsz").getD 8)
        144 ∈
      buildAxisValues ⟨⟨.varRange 100 450 900, .single 0, .single 0, .single 100⟩⟩
        (some [("wght", ⟨100, 900⟩), ("opsz", ⟨8, 144⟩)]) none :=
  ⟨buildAxisValues_variable_constraints
      ⟨⟨.varRange 100 450 900, .single 0, .single 0, .single 100⟩⟩
      [("wght", ⟨100, 900⟩), ("opsz", ⟨8, 144⟩)] none "wght" ⟨100, 900⟩ (by decide),
    buildAxisValues_variable_constraints
      ⟨⟨.varRange 100 450 900, .single 0, .single 0, .single 100⟩⟩
      [("wght", ⟨100, 900⟩), ("opsz", ⟨8, 144⟩)] none "opsz" ⟨8, 144⟩ (by decide)⟩

/-! ## C1: per-job failure isolation -/

theorem isInfixOfCs_append_left (needle x t : List Char)
    (h : isInfixOfCs needle t = true) : isInfixOfCs needle (x ++ t) = true := by
  induction x with
  | nil => simpa using h
  | cons c cs ih => simp [isInfixOfCs, ih]

theorem isInfixOfCs_self_append (needle y : List Char) :
    isInfixOfCs needle (needle ++ y) = true := by
  cases needle with
  | nil =>
    cases y with
    | nil => rfl
    | cons c cs => simp [isInfixOfCs, List.isPrefixOf]
  | cons n ns =>
    have hp : (n :: ns).isPrefixOf ((n :: ns) ++ y) = true := by
      rw [List.isPrefixOf_iff_prefix]
      exact List.prefix_append _ _
    rw [List.cons_append]
    rw [List.cons_append] at hp
    simp [isInfixOfCs, hp]

theorem jsIncludes_append_left (x t needle : String)
    (h : jsIncludes t needle = true) : jsIncludes (x ++ t) needle = true := by
  rw [jsIncludes, String.data_append]
  exact isInfixOfCs_append_left _ _ _ h

theorem jsIncludes_self_append (needle y : String) :
    jsIncludes (needle ++ y) needle = true := by
  rw [jsIncludes, String.data_append]
  exact isInfixOfCs_self_append _ _

/-- **C1.**  A job whose subsetting or compression call throws contributes
zero variants: the build's variant list is exactly the one obtained from
the sibling jobs alone, the logged warning names the job's subset, its
slice (when sliced) and its format, and the build still returns the
`FontPackage` assembled from the surviving variants. -/
theorem processJob_failure_isolated (engine : ExternalEngine) (config : FontBuildConfig)
    (subsets : List (String × SubsetDefinition)) (familyId : String)
    (weights : List Int) (styles : List String)
    (pre post : List ProcessingJob) (j : ProcessingJob) (e : String)
    (hfail : processSlice engine familyId config.featureSettings j = .error e) :
    (runJobs engine familyId config.featureSettings (pre ++ j :: post)).1 =
        (runJobs engine familyId config.featureSettings pre).1 ++
          (runJobs engine familyId config.featureSettings post).1 ∧
    (warningFor j, e) ∈
        (runJobs engine familyId config.featureSettings (pre ++ j :: post)).2 ∧
    jsIncludes (warningFor j) j.subsetName = true ∧
    jsIncludes (warningFor j) j.format = true ∧
    (j.sliceIndex > 0 →
      jsIncludes (warningFor j) (" slice " ++ toString j.sliceIndex) = true) ∧
    buildPackageFromJobs engine config subsets familyId weights styles (pre ++ j :: post) =
      { css := generateAllCssAssets config subsets
          ((runJobs engine familyId config.featureSettings pre).1 ++
            (runJobs engine familyId config.featureSettings post).1) weights styles
        fonts := ((runJobs engine familyId config.featureSettings pre).1 ++
            (runJobs engine familyId config.featureSettings post).1).map
          (fun v => ⟨"files/" ++ v.filename, v.content⟩) } := by
  have hj : processJob engine familyId config.featureSettings j =
      (none, [(warningFor j, e)]) := by
    rw [processJob, hfail]
  have hsplit : (runJobs engine familyId config.featureSettings (pre ++ j :: post)).1 =
      (runJobs engine familyId config.featureSettings pre).1 ++
        (runJobs engine familyId config.featureSettings post).1 := by
    simp only [runJobs, List.map_append, List.map_cons, List.filterMap_append,
      List.filterMap_cons, hj]
  refine ⟨hsplit, ?_, ?_, ?_, ?_, ?_⟩
  · simp only [runJobs, List.map_append, List.map_cons, hj, List.flatten_append,
      List.flatten_cons]
    exact List.mem_append.mpr (Or.inr (List.mem_append.mpr (Or.inl (by simp))))
  · rw [show warningFor j =
        "Failed to process " ++
          ((if j.variableConfig.isSome then "variable" else "static") ++
            (" font" ++
              ((if j.sliceIndex > 0 then " slice " ++ toString j.sliceIndex else "") ++
                (" for " ++
                  (j.subsetName ++ (" (" ++ (j.format ++ "):"))))))) from by
      simp [warningFor, String.append_assoc]]
    apply jsIncludes_append_left
    apply jsIncludes_append_left
    apply jsIncludes_append_left
    apply jsIncludes_append_left
    apply jsIncludes_append_left
    exact jsIncludes_self_append _ _
  · rw [show warningFor j =
        "Failed to process " ++
          ((if j.variableConfig.isSome then "variable" else "static") ++
            (" font" ++
              ((if j.sliceIndex > 0 then " slice " ++ toString j.sliceIndex else "") ++
                (" for " ++
                  (j.subsetName ++ (" (" ++ (j.format ++ "):"))))))) from by
      simp [warningFor, String.append_assoc]]
    apply jsIncludes_append_left
    apply jsIncludes_append_left
    apply jsIncludes_append_left
    apply jsIncludes_append_left
    apply jsIncludes_append_left
    apply jsIncludes_append_left
    apply jsIncludes_append_left
    exact jsIncludes_self_append _ _
  · intro hsl
    rw [show warningFor j =
        "Failed to process " ++
          ((if j.variableConfig.isSome then "variable" else "static") ++
            (" font" ++
              ((if j.sliceIndex > 0 then " slice " ++ toString j.sliceIndex else "") ++
                (" for " ++
                  (j.subsetName ++ (" (" ++ (j.format ++ "):"))))))) from by
      simp [warningFor, String.append_assoc]]
    rw [if_pos hsl]
    apply jsIncludes_append_left
    apply jsIncludes_append_left
    apply jsIncludes_append_left
    exact jsIncludes_self_append _ _
  · rw [buildPackageFromJobs, hsplit]

/-- **C1, witness.**  A two-job build where the engine's compression call
throws for the `woff` format: the `woff` job for subset `latin` is dropped
with its warning, the sibling `woff2` job's variant survives unchanged, and
the build still assembles a `FontPackage`. -/
theorem processJob_failure_isolated_witness :
    (runJobs
        ⟨fun _ _ => .ok [1], fun data format _ =>
          if format = "woff" then .error "boom" else .ok data⟩
        "inter" []
        ([⟨⟨⟨.single 400, .single 0, .single 0, .single 100⟩⟩, "latin", [0], 0, 400,
            "normal", "woff", none, none, none⟩] ++
          ⟨⟨⟨.single 400, .single 0, .single 0, .single 100⟩⟩, "latin", [0], 0, 400,
            "normal", "woff", none, none, none⟩ ::
            [⟨⟨⟨.single 400, .single 0, .single 0, .single 100⟩⟩, "latin", [0], 0, 400,
              "normal", "woff2", none, none, none⟩])).1 =
      (runJobs
        ⟨fun _ _ => .ok [1], fun data format _ =>
          if format = "woff" then .error "boom" else .ok data⟩
        "inter" []
        [⟨⟨⟨.single 400, .single 0, .single 0, .single 100⟩⟩, "latin", [0], 0, 400,
          "normal", "woff", none, none, none⟩]).1 ++
      (runJobs
        ⟨fun _ _ => .ok [1], fun data format _ =>
          if format = "woff" then .error "boom" else .ok data⟩
        "inter" []
        [⟨⟨⟨.single 400, .single 0, .single 0, .single 100⟩⟩, "latin", [0], 0, 400,
          "normal", "woff2", none, none, none⟩]).1 := by
  have h :=
    processJob_failure_isolated
      ⟨fun _ _ => .ok [1], fun data format _ =>
        if format = "woff" then .error "boom" else .ok data⟩
      (.staticCfg "Inter" ["latin"] ["woff", "woff2"] [] [] none none) [] "inter" [] []
      [⟨⟨⟨.single 400, .single 0, .single 0, .single 100⟩⟩, "latin", [0], 0, 400,
        "normal", "woff", none, none, none⟩]
      [⟨⟨⟨.single 400, .single 0, .single 0, .single 100⟩⟩, "latin", [0], 0, 400,
        "normal", "woff2", none, none, none⟩]
      ⟨⟨⟨.single 400, .single 0, .single 0, .single 100⟩⟩, "latin", [0], 0, 400,
        "normal", "woff", none, none, none⟩
      "boom" (by rfl)
  exact h.1

/-! ## C3: inferred weight targets -/

theorem mem_addDistinct [DecidableEq α] (l : List α) (x y : α) :
    y ∈ addDistinct l x ↔ y ∈ l ∨ y = x := by
  rw [addDistinct]
  by_cases h : x ∈ l
  · simp only [if_pos h]
    constructor
    · exact Or.inl
    · rintro (hy | rfl)
      · exact hy
      · exact h
  · simp [if_neg h]

theorem nodup_addDistinct [DecidableEq α] (l : List α) (x : α) (h : l.Nodup) :
    (addDistinct l x).Nodup := by
  rw [addDistinct]
  by_cases hx : x ∈ l
  · simpa [hx] using h
  · simp [hx, List.nodup_append, h]

theorem mem_foldl_addDistinct [DecidableEq α] (l : List α) :
    ∀ (acc : List α) (y : α), y ∈ l.foldl addDistinct acc ↔ y ∈ acc ∨ y ∈ l := by
  induction l with
  | nil => intro acc y; simp
  | cons x xs ih =>
    intro acc y
    rw [List.foldl_cons, ih, mem_addDistinct]
    constructor
    · rintro ((hy | rfl) | hy)
      · exact Or.inl hy
      · exact Or.inr (List.mem_cons_self _ _)
      · exact Or.inr (List.mem_cons_of_mem _ hy)
    · rintro (hy | hy)
      · exact Or.inl (Or.inl hy)
      · rcases List.mem_cons.mp hy with rfl | hy
        · exact Or.inl (Or.inr rfl)
        · exact Or.inr hy

theorem nodup_foldl_addDistinct [DecidableEq α] (l : List α) :
    ∀ acc : List α, acc.Nodup → (l.foldl addDistinct acc).Nodup := by
  induction l with
  | nil => intro acc h; simpa using h
  | cons x xs ih => intro acc h; exact ih _ (nodup_addDistinct _ _ h)

theorem mem_availableWeights (fontRefs : List FontRef) :
    ∀ (acc : List Int) (w : Int),
      w ∈ fontRefs.foldl (fun acc font => (fontAvailableWeights font).foldl addDistinct acc)
          acc ↔
        w ∈ acc ∨ ∃ font ∈ fontRefs, w ∈ fontAvailableWeights font := by
  induction fontRefs with
  | nil => intro acc w; simp
  | cons f fs ih =>
    intro acc w
    rw [List.foldl_cons, ih, mem_foldl_addDistinct]
    constructor
    · rintro ((hy | hy) | ⟨g, hg, hw⟩)
      · exact Or.inl hy
      · exact Or.inr ⟨f, List.mem_cons_self _ _, hy⟩
      · exact Or.inr ⟨g, List.mem_cons_of_mem _ hg, hw⟩
    · rintro (hy | ⟨g, hg, hw⟩)
      · exact Or.inl (Or.inl hy)
      · rcases List.mem_cons.mp hg with rfl | hg
        · exact Or.inl (Or.inr hw)
        · exact Or.inr ⟨g, hg, hw⟩

theorem nodup_availableWeights (fontRefs : List FontRef) :
    ∀ acc : List Int, acc.Nodup →
      (fontRefs.foldl (fun acc font => (fontAvailableWeights font).foldl addDistinct acc)
          acc).Nodup := by
  induction fontRefs with
  | nil => intro acc h; simpa using h
  | cons f fs ih => intro acc h; exact ih _ (nodup_foldl_addDistinct _ _ h)

theorem mem_fontAvailableWeights (font : FontRef) (w : Int) :
    w ∈ fontAvailableWeights font ↔
      (match font.styleValues.weight with
       | .single v => w = v
       | .varRange mn d mx =>
         w = mn ∨ w = mx ∨ (w = d ∧ d ≠ 0) ∨
           (100 ≤ w ∧ w ≤ 1000 ∧ w % 100 = 0 ∧ mn ≤ w ∧ w ≤ mx)) := by
  cases hw : font.styleValues.weight with
  | single v => simp [fontAvailableWeights, hw]
  | varRange mn d mx =>
    simp only [fontAvailableWeights, hw]
    constructor
    · intro h
      rcases List.mem_append.mp h with h | h
      · rcases List.mem_append.mp h with h | h
        · rcases List.mem_cons.mp h with rfl | h
          · exact Or.inl rfl
          · rcases List.mem_cons.mp h with rfl | h
            · exact Or.inr (Or.inl rfl)
            · exact absurd h (List.not_mem_nil _)
        · by_cases hd0 : d = 0
          · rw [if_neg (fun hcon => hcon hd0)] at h
            exact absurd h (List.not_mem_nil _)
          · rw [if_pos hd0] at h
            rcases List.mem_cons.mp h with rfl | h
            · exact Or.inr (Or.inr (Or.inl ⟨rfl, hd0⟩))
            · exact absurd h (List.not_mem_nil _)
      · obtain ⟨hmem, hcond⟩ := List.mem_filter.mp h
        obtain ⟨k, hk, hf⟩ := List.mem_map.mp hmem
        obtain ⟨i, hi, hki⟩ := List.mem_range'.mp hk
        rw [Bool.and_eq_true, decide_eq_true_eq, decide_eq_true_eq] at hcond
        refine Or.inr (Or.inr (Or.inr ⟨?_, ?_, ?_, hcond.1, hcond.2⟩)) <;> omega
    · rintro (rfl | rfl | ⟨rfl, hd0⟩ | ⟨h1, h2, h3, h4, h5⟩)
      · exact List.mem_append.mpr
          (Or.inl (List.mem_append.mpr (Or.inl (List.mem_cons_self _ _))))
      · exact List.mem_append.mpr (Or.inl (List.mem_append.mpr (Or.inl (by simp))))
      · refine List.mem_append.mpr (Or.inl (List.mem_append.mpr (Or.inr ?_)))
        rw [if_pos hd0]
        exact List.mem_cons_self _ _
      · refine List.mem_append.mpr (Or.inr (List.mem_filter.mpr ⟨?_, ?_⟩))
        · refine List.mem_map.mpr ⟨w.toNat / 100, ?_, ?_⟩
          · exact List.mem_range'.mpr ⟨w.toNat / 100 - 1, by omega, by omega⟩
          · omega
        · rw [Bool.and_eq_true, decide_eq_true_eq, decide_eq_true_eq]
          exact ⟨h4, h5⟩


/-- **C3.**  When no explicit static weight list is configured, the
resolved weights are exactly: each fixed-weight font's single value, and
for each variable-weight font its minimum, its maximum, its declared
default when nonzero, and every multiple of 100 in `[100, 1000]` lying
within `[min, max]`; the result is strictly ascending (distinct, sorted). -/
theorem inferred_weights_characterization (fontRefs : List FontRef)
    (config : FontBuildConfig) (hinfer : hasItems config.staticWeights = false) :
    List.Sorted (· < ·) (determineProcessingTargets fontRefs config).weightsToProcess ∧
    ∀ w : Int,
      w ∈ (determineProcessingTargets fontRefs config).weightsToProcess ↔
        ∃ font ∈ fontRefs,
          (match font.styleValues.weight with
           | .single v => w = v
           | .varRange mn d mx =>
             w = mn ∨ w = mx ∨ (w = d ∧ d ≠ 0) ∨
               (100 ≤ w ∧ w ≤ 1000 ∧ w % 100 = 0 ∧ mn ≤ w ∧ w ≤ mx)) := by
  have hr : (determineProcessingTargets fontRefs config).weightsToProcess =
      List.insertionSort (· ≤ ·)
        (fontRefs.foldl
          (fun acc font => (fontAvailableWeights font).foldl addDistinct acc) []) := by
    simp only [determineProcessingTargets, hinfer, Bool.and_false, Bool.false_and,
      Bool.false_eq_true, if_false]
  constructor
  · rw [hr]
    have hnodup : (List.insertionSort (· ≤ ·)
        (fontRefs.foldl
          (fun acc font => (fontAvailableWeights font).foldl addDistinct acc) [])).Nodup :=
      (List.perm_insertionSort _ _).symm.nodup
        (nodup_availableWeights fontRefs [] List.nodup_nil)
    exact (List.sorted_insertionSort _ _).lt_of_le hnodup
  · intro w
    rw [hr, (List.perm_insertionSort _ _).mem_iff, mem_availableWeights]
    simp only [List.not_mem_nil, false_or, mem_fontAvailableWeights]

/-- **C3, witness.**  A fixed 500-weight font plus a variable 100–700 font
with declared default 450: the inferred set is strictly ascending and 450
is in it via the variable font's nonzero default. -/
theorem inferred_weights_characterization_witness :
    List.Sorted (· < ·)
      (determineProcessingTargets
        [⟨⟨.single 500, .single 0, .single 0, .single 100⟩⟩,
          ⟨⟨.varRange 100 450 700, .single 0, .single 0, .single 100⟩⟩]
        (.variableCfg "Inter" [] [] [] [] [] none)).weightsToProcess ∧
    ((450 : Int) ∈
        (determineProcessingTargets
          [⟨⟨.single 500, .single 0, .single 0, .single 100⟩⟩,
            ⟨⟨.varRange 100 450 700, .single 0, .single 0, .single 100⟩⟩]
          (.variableCfg "Inter" [] [] [] [] [] none)).weightsToProcess ↔
      ∃ font ∈ [(⟨⟨.single 500, .single 0, .single 0, .single 100⟩⟩ : FontRef),
          ⟨⟨.varRange 100 450 700, .single 0, .single 0, .single 100⟩⟩],
        (match font.styleValues.weight with
         | .single v => (450 : Int) = v
         | .varRange mn d mx =>
           (450 : Int) = mn ∨ (450 : Int) = mx ∨ ((450 : Int) = d ∧ d ≠ 0) ∨
             (100 ≤ (450 : Int) ∧ (450 : Int) ≤ 1000 ∧ (450 : Int) % 100 = 0 ∧
               mn ≤ (450 : Int) ∧ (450 : Int) ≤ mx))) :=
  ⟨(inferred_weights_characterization _ _ (by rfl)).1,
    (inferred_weights_characterization _ _ (by rfl)).2 450⟩

/-! ## C6: the default `index.css` of a static build -/

/-- `x` is at least as good a default weight as `y`: strictly closer to
400, or equally close and at least as heavy. -/
def closerTo400 (x y : Int) : Prop :=
  (x - 400).natAbs < (y - 400).natAbs ∨
    ((x - 400).natAbs = (y - 400).natAbs ∧ y ≤ x)

theorem closerTo400_refl (x : Int) : closerTo400 x x :=
  Or.inr ⟨rfl, le_refl x⟩

theorem closerTo400_trans (x y z : Int) (h₁ : closerTo400 x y) (h₂ : closerTo400 y z) :
    closerTo400 x z := by
  rw [closerTo400] at *
  omega

theorem closestTo400Step_cases (a b : Int) :
    closestTo400Step a b = a ∨ closestTo400Step a b = b := by
  rw [closestTo400Step]
  split
  · exact Or.inr rfl
  · exact Or.inl rfl

theorem closestTo400Step_better (a b : Int) :
    closerTo400 (closestTo400Step a b) a ∧ closerTo400 (closestTo400Step a b) b := by
  rw [closestTo400Step]
  split
  · rw [closerTo400, closerTo400]
    omega
  · rw [closerTo400, closerTo400]
    omega

theorem foldl_closestTo400_spec (ws : List Int) : ∀ a : Int,
    (ws.foldl closestTo400Step a = a ∨ ws.foldl closestTo400Step a ∈ ws) ∧
    ∀ u : Int, (u = a ∨ u ∈ ws) → closerTo400 (ws.foldl closestTo400Step a) u := by
  induction ws with
  | nil =>
    intro a
    refine ⟨Or.inl rfl, ?_⟩
    rintro u (rfl | h)
    · exact closerTo400_refl u
    · cases h
  | cons b bs ih =>
    intro a
    rw [List.foldl_cons]
    obtain ⟨ihmem, ihbest⟩ := ih (closestTo400Step a b)
    constructor
    · rcases ihmem with h | h
      · rw [h]
        rcases closestTo400Step_cases a b with h' | h'
        · exact Or.inl h'
        · rw [h']
          exact Or.inr (List.mem_cons_self b bs)
      · exact Or.inr (List.mem_cons_of_mem _ h)
    · rintro u (rfl | hu)
      · exact closerTo400_trans _ _ _ (ihbest _ (Or.inl rfl)) (closestTo400Step_better u b).1
      · rcases List.mem_cons.mp hu with rfl | hu
        · exact closerTo400_trans _ _ _ (ihbest _ (Or.inl rfl))
            (closestTo400Step_better a u).2
        · exact ihbest u (Or.inr hu)

/-- **C6, counterexample.**  The claim says every static build that
produced at least one per-weight stylesheet emits an `index.css` copying
the stylesheet of the weight closest to 400.  With weights `[400, 700]`
but variants only at weight 700, the build produces `700.css` and *no*
`index.css` at all: the reduce picks 400, finds no `400.css`, and skips
the copy. -/
theorem indexCss_missing_counterexample :
    ((generateAllCssAssets
        (.staticCfg "Inter" ["latin"] ["woff2"] [] [] (some [400, 700]) (some ["normal"]))
        [("latin", .range "latin" "U+0-FF" [0])]
        [.staticVariant 700 "normal" "latin" 0 "inter-latin-700-normal.woff2" [1]]
        [400, 700] ["normal"]).map OutputAsset.filename) = ["700.css"] ∧
    "index.css" ∉
      ((generateAllCssAssets
        (.staticCfg "Inter" ["latin"] ["woff2"] [] [] (some [400, 700]) (some ["normal"]))
        [("latin", .range "latin" "U+0-FF" [0])]
        [.staticVariant 700 "normal" "latin" 0 "inter-latin-700-normal.woff2" [1]]
        [400, 700] ["normal"]).map OutputAsset.filename) := by
  exact ⟨by decide, by decide⟩

/-- **C6, amended.**  For every static build, the default weight is the
weight closest to 400 among the weights selected for processing, ties
broken toward the heavier weight; *if* a per-weight stylesheet named after
that weight was produced, the emitted assets are exactly the per-weight
stylesheets plus an `index.css` that is a byte-exact copy of it, and if
that weight produced no stylesheet, no `index.css` is emitted at all. -/
theorem indexCss_copy_of_closest (family : String) (subsNames : List String)
    (fmts : List String) (fs : List (String × Bool)) (srcs : List (String × String))
    (wopt : Option (List Int)) (sopt : Option (List String))
    (subsets : List (String × SubsetDefinition)) (allVariants : List ProcessedVariant)
    (weights : List Int) (styles : List String) (w0 : Int) (ws : List Int)
    (hw : weights = w0 :: ws) :
    ∃ dw : Int, defaultWeightOf weights = some dw ∧ dw ∈ weights ∧
      (∀ u ∈ weights, closerTo400 dw u) ∧
      (match (staticStyleSheets family allVariants subsets weights styles).find?
          (fun a => a.filename = toString dw ++ ".css") with
       | some indexCss =>
         generateAllCssAssets (.staticCfg family subsNames fmts fs srcs wopt sopt)
             subsets allVariants weights styles =
           staticStyleSheets family allVariants subsets weights styles ++
             [⟨"index.css", indexCss.content⟩]
       | none =>
         generateAllCssAssets (.staticCfg family subsNames fmts fs srcs wopt sopt)
             subsets allVariants weights styles =
           staticStyleSheets family allVariants subsets weights styles) := by
  subst hw
  obtain ⟨hmem, hbest⟩ := foldl_closestTo400_spec ws w0
  refine ⟨ws.foldl closestTo400Step w0, rfl, ?_, ?_, ?_⟩
  · rcases hmem with h | h
    · rw [h]; exact List.mem_cons_self _ _
    · exact List.mem_cons_of_mem _ h
  · intro u hu
    rcases List.mem_cons.mp hu with rfl | hu
    · exact hbest u (Or.inl rfl)
    · exact hbest u (Or.inr hu)
  · cases hfind : (staticStyleSheets family allVariants subsets (w0 :: ws) styles).find?
        (fun a => a.filename = toString (ws.foldl closestTo400Step w0) ++ ".css") with
    | some indexCss =>
      simp only [generateAllCssAssets, defaultWeightOf, hfind]
    | none =>
      simp only [generateAllCssAssets, defaultWeightOf, hfind]

/-- **C6, amended, witness.**  Weights `[400, 700]` with variants at both
weights: `400.css` exists, so `index.css` is appended as its byte-exact
copy. -/
theorem indexCss_copy_of_closest_witness :
    ∃ dw : Int,
      defaultWeightOf [400, 700] = some dw ∧ dw ∈ ([400, 700] : List Int) ∧
      (∀ u ∈ ([400, 700] : List Int), closerTo400 dw u) ∧
      (match (staticStyleSheets "Inter"
          [.staticVariant 400 "normal" "latin" 0 "inter-latin-400-normal.woff2" [1],
            .staticVariant 700 "normal" "latin" 0 "inter-latin-700-normal.woff2" [2]]
          [("latin", .range "latin" "U+0-FF" [0])] [400, 700] ["normal"]).find?
          (fun a => a.filename = toString dw ++ ".css") with
       | some indexCss =>
         generateAllCssAssets
             (.staticCfg "Inter" ["latin"] ["woff2"] [] [] (some [400, 700])
               (some ["normal"]))
             [("latin", .range "latin" "U+0-FF" [0])]
             [.staticVariant 400 "normal" "latin" 0 "inter-latin-400-normal.woff2" [1],
               .staticVariant 700 "normal" "latin" 0 "inter-latin-700-normal.woff2" [2]]
             [400, 700] ["normal"] =
           staticStyleSheets "Inter"
             [.staticVariant 400 "normal" "latin" 0 "inter-latin-400-normal.woff2" [1],
               .staticVariant 700 "normal" "latin" 0 "inter-latin-700-normal.woff2" [2]]
             [("latin", .range "latin" "U+0-FF" [0])] [400, 700] ["normal"] ++
             [⟨"index.css", indexCss.content⟩]
       | none =>
         generateAllCssAssets
             (.staticCfg "Inter" ["latin"] ["woff2"] [] [] (some [400, 700])
               (some ["normal"]))
             [("latin", .range "latin" "U+0-FF" [0])]
             [.staticVariant 400 "normal" "latin" 0 "inter-latin-400-normal.woff2" [1],
               .staticVariant 700 "normal" "latin" 0 "inter-latin-700-normal.woff2" [2]]
             [400, 700] ["normal"] =
           staticStyleSheets "Inter"
             [.staticVariant 400 "normal" "latin" 0 "inter-latin-400-normal.woff2" [1],
               .staticVariant 700 "normal" "latin" 0 "inter-latin-700-normal.woff2" [2]]
             [("latin", .range "latin" "U+0-FF" [0])] [400, 700] ["normal"]) :=
  indexCss_copy_of_closest "Inter" ["latin"] ["woff2"] [] [] (some [400, 700])
    (some ["normal"]) [("latin", .range "latin" "U+0-FF" [0])]
    [.staticVariant 400 "normal" "latin" 0 "inter-latin-400-normal.woff2" [1],
      .staticVariant 700 "normal" "latin" 0 "inter-latin-700-normal.woff2" [2]]
    [400, 700] ["normal"] 400 [700] rfl

/-! ## C7: canonicity of `codepointsToRangeString` -/

theorem mem_dedupFirst (l : List Nat) :
    ∀ (seen : List Nat) (y : Nat), y ∈ dedupFirst seen l ↔ y ∈ l ∧ y ∉ seen := by
  induction l with
  | nil => intro seen y; simp [dedupFirst]
  | cons x xs ih =>
    intro seen y
    rw [dedupFirst]
    by_cases hx : x ∈ seen
    · rw [if_pos hx, ih]
      constructor
      · rintro ⟨hy, hns⟩
        exact ⟨List.mem_cons_of_mem _ hy, hns⟩
      · rintro ⟨hy, hns⟩
        rcases List.mem_cons.mp hy with rfl | hy
        · exact absurd hx hns
        · exact ⟨hy, hns⟩
    · rw [if_neg hx]
      constructor
      · intro hy
        rcases List.mem_cons.mp hy with rfl | hy
        · exact ⟨List.mem_cons_self _ _, hx⟩
        · obtain ⟨h1, h2⟩ := (ih _ _).mp hy
          exact ⟨List.mem_cons_of_mem _ h1,
            fun hc => h2 (List.mem_cons_of_mem _ hc)⟩
      · rintro ⟨hy, hns⟩
        rcases List.mem_cons.mp hy with rfl | hy
        · exact List.mem_cons_self _ _
        · by_cases hyx : y = x
          · subst hyx; exact List.mem_cons_self _ _
          · exact List.mem_cons_of_mem _
              ((ih _ _).mpr ⟨hy, by simp [hyx, hns]⟩)

theorem nodup_dedupFirst (l : List Nat) : ∀ seen : List Nat, (dedupFirst seen l).Nodup := by
  induction l with
  | nil => intro seen; simp [dedupFirst]
  | cons x xs ih =>
    intro seen
    rw [dedupFirst]
    by_cases hx : x ∈ seen
    · rw [if_pos hx]; exact ih seen
    · rw [if_neg hx]
      refine List.nodup_cons.mpr ⟨?_, ih _⟩
      intro hc
      exact ((mem_dedupFirst _ _ _).mp hc).2 (List.mem_cons_self _ _)

theorem mem_sortedUnique (l : List Nat) (y : Nat) : y ∈ sortedUnique l ↔ y ∈ l := by
  rw [sortedUnique, (List.perm_insertionSort _ _).mem_iff, mem_dedupFirst]
  simp

theorem nodup_sortedUnique (l : List Nat) : (sortedUnique l).Nodup :=
  (List.perm_insertionSort _ _).symm.nodup (nodup_dedupFirst l [])

theorem sorted_lt_sortedUnique (l : List Nat) : List.Sorted (· < ·) (sortedUnique l) :=
  (List.sorted_insertionSort _ _).lt_of_le (nodup_sortedUnique l)

theorem sortedUnique_congr (l₁ l₂ : List Nat) (h : ∀ x, x ∈ l₁ ↔ x ∈ l₂) :
    sortedUnique l₁ = sortedUnique l₂ := by
  refine List.eq_of_perm_of_sorted
    (List.perm_of_nodup_nodup_toFinset_eq (nodup_sortedUnique l₁) (nodup_sortedUnique l₂)
      (Finset.ext fun a => ?_))
    (List.sorted_insertionSort _ _) (List.sorted_insertionSort _ _)
  simp [List.mem_toFinset, mem_sortedUnique, h]

theorem hexDigitChar_mem (k : Nat) (h : k < 16) :
    hexDigitChar k ∈ "0123456789ABCDEF".data := by
  interval_cases k <;> decide

theorem toHexDigitsAux_subset (fuel : Nat) :
    ∀ (n : Nat), ∀ c ∈ toHexDigitsAux fuel n, c ∈ "0123456789ABCDEF".data := by
  induction fuel with
  | zero => intro n c hc; cases hc
  | succ fuel ih =>
    intro n c hc
    rw [toHexDigitsAux] at hc
    by_cases hn : n < 16
    · rw [if_pos hn] at hc
      rcases List.mem_singleton.mp hc with rfl
      exact hexDigitChar_mem n hn
    · rw [if_neg hn] at hc
      rcases List.mem_append.mp hc with hc | hc
      · exact ih (n / 16) c hc
      · rcases List.mem_singleton.mp hc with rfl
        exact hexDigitChar_mem _ (Nat.mod_lt _ (by omega))

theorem toHexDigits_subset (n : Nat) :
    ∀ c ∈ toHexDigits n, c ∈ "0123456789ABCDEF".data :=
  toHexDigitsAux_subset (n + 1) n

theorem rangesLoop_spec (xs : List Nat) : ∀ a b : Nat, a ≤ b →
    List.Chain (· < ·) b xs →
    ∃ runs : List (Nat × Nat),
      rangesLoop a b xs = runs.map (fun p => renderRange p.1 p.2) ∧
      (runs.map (fun p => List.range' p.1 (p.2 + 1 - p.1))).flatten =
        List.range' a (b + 1 - a) ++ xs ∧
      runs.Chain' (fun p q => p.2 + 1 < q.1) ∧
      (∀ p ∈ runs, p.1 ≤ p.2) ∧
      (∃ q qs, runs = q :: qs ∧ q.1 = a) := by
  induction xs with
  | nil =>
    intro a b hab _
    refine ⟨[(a, b)], rfl, by simp, List.chain'_singleton _, ?_, (a, b), [], rfl, rfl⟩
    rintro p hp
    rcases List.mem_singleton.mp hp with rfl
    exact hab
  | cons y ys ih =>
    intro a b hab hchain
    rw [List.chain_cons] at hchain
    obtain ⟨hby, hchain⟩ := hchain
    by_cases hy : y = b + 1
    · subst hy
      obtain ⟨runs, h1, h2, h3, h4, q, qs, h5, h6⟩ :=
        ih a (b + 1) (by omega) hchain
      refine ⟨runs, ?_, ?_, h3, h4, q, qs, h5, h6⟩
      · rw [rangesLoop, if_neg (by omega)]
        exact h1
      · rw [h2]
        have he : b + 1 + 1 - a = (b + 1 - a) + 1 := by omega
        rw [he, List.range'_concat]
        have ha : a + 1 * (b + 1 - a) = b + 1 := by omega
        rw [ha, List.append_assoc, List.singleton_append]
    · obtain ⟨runs, h1, h2, h3, h4, q, qs, h5, h6⟩ := ih y y (le_refl y) hchain
      refine ⟨(a, b) :: runs, ?_, ?_, ?_, ?_, (a, b), runs, rfl, rfl⟩
      · rw [rangesLoop, if_pos (by omega), h1, List.map_cons]
      · rw [List.map_cons, List.flatten_cons, h2]
        have hy1 : y + 1 - y = 1 := by omega
        rw [hy1]
        simp [List.range']
      · rw [h5]
        exact List.Chain'.cons (by simp [h5] at h6 ⊢; omega) (h5 ▸ h3)
      · intro p hp
        rcases List.mem_cons.mp hp with rfl | hp
        · exact hab
        · exact h4 p hp


/-- **C7.**  `codepointsToRangeString` is canonical: set-equal inputs (any
reordering, any duplication) give the identical string, and that string is
the comma-space-joined list of maximal contiguous runs of the deduplicated
sorted codepoints — runs in ascending order, separated by gaps, each
rendered `U+HEX` (single) or `U+HEX-HEX` (inclusive run) with uppercase hex
digits. -/
theorem codepointsToRangeString_canonical (l₁ l₂ : List Nat)
    (h : ∀ x, x ∈ l₁ ↔ x ∈ l₂) :
    codepointsToRangeString (some l₁) = codepointsToRangeString (some l₂) ∧
    ∃ runs : List (Nat × Nat),
      codepointsToRangeString (some l₁) =
        String.intercalate ", " (runs.map (fun p => renderRange p.1 p.2)) ∧
      (runs.map (fun p => List.range' p.1 (p.2 + 1 - p.1))).flatten = sortedUnique l₁ ∧
      runs.Chain' (fun p q => p.2 + 1 < q.1) ∧
      (∀ p ∈ runs, p.1 ≤ p.2) ∧
      (∀ p ∈ runs,
        (∀ c ∈ (toHexUpper p.1).data, c ∈ "0123456789ABCDEF".data) ∧
        (∀ c ∈ (toHexUpper p.2).data, c ∈ "0123456789ABCDEF".data)) := by
  constructor
  · have hsu := sortedUnique_congr l₁ l₂ h
    simp only [codepointsToRangeString, hsu]
  · cases hs : sortedUnique l₁ with
    | nil =>
      refine ⟨[], ?_, by simp [hs], List.chain'_nil, by simp, by simp⟩
      simp only [codepointsToRangeString, hs, List.map_nil]
      rfl
    | cons x xs =>
      have hsorted := sorted_lt_sortedUnique l₁
      rw [hs] at hsorted
      have hchain : List.Chain (· < ·) x xs := List.chain_iff_pairwise.mpr hsorted
      obtain ⟨runs, h1, h2, h3, h4, _⟩ := rangesLoop_spec xs x x (le_refl x) hchain
      refine ⟨runs, ?_, ?_, h3, h4, ?_⟩
      · simp only [codepointsToRangeString, hs, h1]
      · rw [h2]
        have hx1 : x + 1 - x = 1 := by omega
        rw [hx1, List.range'_one, List.singleton_append]
      · intro p _
        exact ⟨toHexDigits_subset p.1, toHexDigits_subset p.2⟩

/-- **C7, witness.**  `[3, 1, 2, 2, 255]` and `[255, 1, 2, 3]` are equal as
sets and render identically, as `U+1-3, U+FF`. -/
theorem codepointsToRangeString_canonical_witness :
    (codepointsToRangeString (some [3, 1, 2, 2, 255]) =
        codepointsToRangeString (some [255, 1, 2, 3]) ∧
      ∃ runs : List (Nat × Nat),
        codepointsToRangeString (some [3, 1, 2, 2, 255]) =
          String.intercalate ", " (runs.map (fun p => renderRange p.1 p.2)) ∧
        (runs.map (fun p => List.range' p.1 (p.2 + 1 - p.1))).flatten =
          sortedUnique [3, 1, 2, 2, 255] ∧
        runs.Chain' (fun p q => p.2 + 1 < q.1) ∧
        (∀ p ∈ runs, p.1 ≤ p.2) ∧
        (∀ p ∈ runs,
          (∀ c ∈ (toHexUpper p.1).data, c ∈ "0123456789ABCDEF".data) ∧
          (∀ c ∈ (toHexUpper p.2).data, c ∈ "0123456789ABCDEF".data))) ∧
    codepointsToRangeString (some [3, 1, 2, 2, 255]) = "U+1-3, U+FF" :=
  ⟨codepointsToRangeString_canonical [3, 1, 2, 2, 255] [255, 1, 2, 3]
      (by intro x; simp only [List.mem_cons, List.not_mem_nil, or_false]; omega),
    by decide⟩

end Fontsource
